import Mathlib

/-!
# Verification of a tiny evented state container (`src/index.js`)

The repository exports `createStore(state)`, a store closure with
`setState(update, overwrite)`, `on(stateSlice, callback, effect)`,
`subscribe(listener, effect)` and `getState()`.

We embed the program shallowly:

* JavaScript objects become ordered association lists (`Obj V`): the list
  order is the object's own key-enumeration order, and a well-formed object
  has no duplicate keys (`objNodup`).
* `assign` (imported from the missing `./util` module) is modelled from the
  spec as `Object.assign` semantics.
* The store closure becomes a `StoreState` record; observer callbacks are
  deeply embedded as a small command language `Cmd`, and the body of
  `setState` — including the *live* (aliased) reads of the `listeners`
  array, the `onListeners` map and the `state` variable inside its loops —
  is a fuel-indexed interpreter `runSetState` that records every observer
  invocation as an `Event`.
* Object identity for `getState` reference stability is modelled with an
  explicit heap of objects (`Heap V`), on which `assignH` mutates its
  target in place exactly as `Object.assign` does.
-/

set_option autoImplicit false

namespace ByteStore

variable {V : Type}

/-- JavaScript object keys are strings. -/
abbrev Key := String

/-- A JavaScript object: an ordered association list from keys to values.
The list order is the object's key-enumeration order. -/
abbrev Obj (V : Type) := List (Key × V)

/-- Property read `o[k]`: the value at the first occurrence of key `k`,
`none` for `undefined`. -/
def alistGet {α : Type} : List (Key × α) → Key → Option α
  | [], _ => none
  | (k', v) :: t, k => if k' = k then some v else alistGet t k

/-- Property write `o[k] = v`: overwrite the existing entry for `k` in
place (keeping its position) or append a fresh entry at the end, exactly
as JavaScript property assignment orders keys. -/
def alistSet {α : Type} : List (Key × α) → Key → α → List (Key × α)
  | [], k, v => [(k, v)]
  | (k', v') :: t, k, v =>
      if k' = k then (k, v) :: t else (k', v') :: alistSet t k v

/-- `Object.keys(o)`: the keys in enumeration order. -/
def objKeys (o : Obj V) : List Key := o.map Prod.fst

/-- A well-formed JavaScript object has no duplicate keys. -/
def objNodup (o : Obj V) : Prop := (o.map Prod.fst).Nodup

instance (o : Obj V) : Decidable (objNodup o) := by
  unfold objNodup; exact List.nodupDecidable _

/-- Modelled from the spec: `assign` is imported from `./util`, which is
not in the repository sources.  The spec describes the merge as "start
from a copy of the current state, then for each key in `update`,
set/overwrite that key's value in the copy", i.e. `Object.assign`
semantics: copy every own key of `source` into `target` in enumeration
order and return `target`.  This is the pure-value version; `assignH`
below is the in-place version on the heap. -/
def assign (target source : Obj V) : Obj V :=
  source.foldl (fun t kv => alistSet t kv.1 kv.2) target

/-- The state computed by `setState`:
`state = overwrite ? update : assign(assign({}, state), update)`
(src/index.js line 23). -/
def newState (s u : Obj V) (overwrite : Bool) : Obj V :=
  if overwrite then u else assign (assign [] s) u

section AlistLemmas

theorem alistGet_alistSet {α : Type} (o : List (Key × α)) (k k' : Key) (v : α) :
    alistGet (alistSet o k v) k' = if k = k' then some v else alistGet o k' := by
  induction o with
  | nil =>
      by_cases h : k = k' <;> simp [alistSet, alistGet, h]
  | cons hd tl ih =>
      obtain ⟨k0, v0⟩ := hd
      by_cases h0 : k0 = k
      · subst h0
        by_cases h : k0 = k' <;> simp [alistSet, alistGet, h]
      · by_cases h : k0 = k'
        · subst h
          have hkk : ¬ k = k0 := fun hc => h0 hc.symm
          simp [alistSet, alistGet, h0, hkk]
        · simp [alistSet, alistGet, h0, h, ih]

theorem alistGet_assign_notMem (t : Obj V) (u : Obj V) (k : Key)
    (h : k ∉ objKeys u) : alistGet (assign t u) k = alistGet t k := by
  induction u generalizing t with
  | nil => rfl
  | cons hd tl ih =>
      obtain ⟨k0, v0⟩ := hd
      have hcons : k ∉ k0 :: objKeys tl := h
      have hk0 : k0 ≠ k := by
        intro hc; subst hc; exact hcons (List.mem_cons_self _ _)
      have htl : k ∉ objKeys tl := fun hm => hcons (List.mem_cons_of_mem _ hm)
      have hstep : assign t ((k0, v0) :: tl) = assign (alistSet t k0 v0) tl := rfl
      rw [hstep, ih _ htl, alistGet_alistSet]
      simp [hk0]

theorem alistGet_assign (t : Obj V) (u : Obj V) (k : Key) (hu : objNodup u) :
    alistGet (assign t u) k =
      match alistGet u k with
      | some v => some v
      | none => alistGet t k := by
  induction u generalizing t with
  | nil => rfl
  | cons hd tl ih =>
      obtain ⟨k0, v0⟩ := hd
      have hu' : (k0 :: tl.map Prod.fst).Nodup := hu
      have hnodup : objNodup tl := hu'.of_cons
      have hk0tl : k0 ∉ objKeys tl := (List.nodup_cons.mp hu').1
      have hstep : assign t ((k0, v0) :: tl) = assign (alistSet t k0 v0) tl := rfl
      rw [hstep]
      by_cases h : k0 = k
      · subst h
        rw [alistGet_assign_notMem _ _ _ hk0tl, alistGet_alistSet]
        simp [alistGet]
      · rw [ih _ hnodup]
        cases hget : alistGet tl k with
        | some v => simp [alistGet, h, hget]
        | none => simp [alistGet, h, hget, alistGet_alistSet]

theorem alistSet_append_notMem {α : Type} (o : List (Key × α)) (k : Key) (v : α)
    (h : k ∉ o.map Prod.fst) : alistSet o k v = o ++ [(k, v)] := by
  induction o with
  | nil => rfl
  | cons hd tl ih =>
      obtain ⟨k0, v0⟩ := hd
      have hcons : k ∉ k0 :: tl.map Prod.fst := h
      have hk0 : k0 ≠ k := by
        intro hc; subst hc; exact hcons (List.mem_cons_self _ _)
      have htl : k ∉ tl.map Prod.fst := fun hm => hcons (List.mem_cons_of_mem _ hm)
      simp [alistSet, hk0, ih htl]

theorem assign_of_disjoint (u : Obj V) (t : Obj V)
    (hdisj : ∀ k ∈ objKeys u, k ∉ objKeys t) (hu : objNodup u) :
    assign t u = t ++ u := by
  induction u generalizing t with
  | nil => simp [assign]
  | cons hd tl ih =>
      obtain ⟨k0, v0⟩ := hd
      have hk0 : k0 ∉ objKeys t := hdisj k0 (List.mem_cons_self _ _)
      have hu' : (k0 :: tl.map Prod.fst).Nodup := hu
      have hnodup : objNodup tl := hu'.of_cons
      have hk0tl : k0 ∉ objKeys tl := (List.nodup_cons.mp hu').1
      have hstep : assign t ((k0, v0) :: tl) = assign (alistSet t k0 v0) tl := rfl
      rw [hstep, alistSet_append_notMem t k0 v0 hk0]
      rw [ih (t ++ [(k0, v0)])]
      · simp
      · intro k hk
        have hkt : k ∉ objKeys t := hdisj k (List.mem_cons_of_mem _ hk)
        have hkk0 : k ≠ k0 := fun hc => hk0tl (hc ▸ hk)
        have hmap : objKeys (t ++ [(k0, v0)]) = objKeys t ++ [k0] := by
          simp [objKeys]
        rw [hmap]
        intro hm
        rcases List.mem_append.mp hm with h1 | h1
        · exact hkt h1
        · exact hkk0 (List.mem_singleton.mp h1)
      · exact hnodup

theorem assign_nil (s : Obj V) (hs : objNodup s) : assign [] s = s := by
  have := assign_of_disjoint s [] (by simp [objKeys]) hs
  simpa using this

end AlistLemmas

/-! ## Operational model of the store closure

Observer callbacks are arbitrary caller-supplied functions; the claims
about notification order, live-list iteration, re-entrancy and exception
propagation need callbacks that can call back into the store.  We embed
callbacks deeply as a command language `Cmd` and interpret the body of
`setState` (src/index.js lines 22-42) with explicit fuel. -/

/-- A deeply embedded observer callback body.  `nop` does nothing (a
passive callback); `throwErr e` throws; `getState` calls the store's
`getState()` and records the value it saw; `setState`, `subscribe` and
`on` call back into the store closure; `seq` sequences two actions. -/
inductive Cmd (V : Type) where
  | nop
  | throwErr (e : Nat)
  | getState
  | setState (u : Obj V) (overwrite : Bool)
  | subscribe (name : Nat) (li ef : Cmd V)
  | on (key : Key) (name : Nat) (li ef : Cmd V)
  | seq (a b : Cmd V)
  deriving DecidableEq

/-- The `{ _li: callback, _ef: effect }` record pushed by `subscribe` and
`on` (src/index.js lines 53-54 and 86-87), tagged with a name so traces
can identify which observer was invoked. -/
structure Observer (V : Type) where
  name : Nat
  _li : Cmd V
  _ef : Cmd V
  deriving DecidableEq

/-- The closure state of one store: the `state`, `listeners` and
`onListeners` variables captured by `createStore` (src/index.js lines
17-19).  `onListeners` is a JavaScript `Map`, an insertion-ordered
association list with unique keys. -/
structure StoreState (V : Type) where
  state : Obj V
  listeners : List (Observer V)
  onListeners : List (Key × List (Observer V))
  deriving DecidableEq

/-- Observable events of a fan-out: `invoke n isEffect s` records that the
whole-state observer named `n` had its `_li` (`isEffect = false`) or `_ef`
(`isEffect = true`) called with argument `s`; `invokeSlice k n isEffect v`
the same for a slice observer registered under key `k`, called with
`state[k]` (`none` = `undefined`); `got s` records that a callback called
`getState()` and received `s`. -/
inductive Event (V : Type) where
  | invoke (name : Nat) (isEffect : Bool) (payload : Obj V)
  | invokeSlice (key : Key) (name : Nat) (isEffect : Bool) (payload : Option V)
  | got (s : Obj V)
  deriving DecidableEq

/-- Abnormal termination of a run: a thrown exception propagating out of
`setState`, or interpreter fuel exhaustion (an artifact of the model, not
of the program). -/
inductive Exc where
  | thrown (e : Nat)
  | fuelOut
  deriving DecidableEq

/-- Result of running a command or a fan-out: the store state after it,
the events it produced in order, and `some` exception if it threw. -/
abbrev Res (V : Type) := StoreState V × List (Event V) × Option Exc

/-- `getState()` (src/index.js lines 92-94): returns the current state
reference. -/
def getState (σ : StoreState V) : Obj V := σ.state

mutual

/-- Interpret one callback body against the store.  Fuel strictly
decreases on every recursive call, so a run with enough fuel is the
program's real (terminating) execution. -/
def runCmd : Nat → StoreState V → Cmd V → Res V
  | 0, σ, _ => (σ, [], some Exc.fuelOut)
  | _ + 1, σ, Cmd.nop => (σ, [], none)
  | _ + 1, σ, Cmd.throwErr e => (σ, [], some (Exc.thrown e))
  | _ + 1, σ, Cmd.getState => (σ, [Event.got (getState σ)], none)
  | fuel + 1, σ, Cmd.setState u ow => runSetState fuel σ u ow
  | _ + 1, σ, Cmd.subscribe n li ef =>
      ({σ with listeners := σ.listeners ++ [⟨n, li, ef⟩]}, [], none)
  | _ + 1, σ, Cmd.on key n li ef =>
      let m0 := if (alistGet σ.onListeners key).isSome then σ.onListeners
                else alistSet σ.onListeners key []
      let cur := (alistGet m0 key).getD []
      ({σ with onListeners := alistSet m0 key (cur ++ [⟨n, li, ef⟩])}, [], none)
  | fuel + 1, σ, Cmd.seq a b =>
      match runCmd fuel σ a with
      | (σ1, ev1, some e) => (σ1, ev1, some e)
      | (σ1, ev1, none) =>
          match runCmd fuel σ1 b with
          | (σ2, ev2, r) => (σ2, ev1 ++ ev2, r)

/-- The body of `setState(update, overwrite)` (src/index.js lines 22-42):
assign the new state first, then run phase 1 (`loop1`) over the
whole-state listeners, then phase 2 (`loop2`) over `Object.keys(update)`.
A throw in phase 1 skips phase 2 entirely. -/
def runSetState : Nat → StoreState V → Obj V → Bool → Res V
  | 0, σ, _, _ => (σ, [], some Exc.fuelOut)
  | fuel + 1, σ, u, ow =>
      let σ1 : StoreState V := { σ with state := newState σ.state u ow }
      match loop1 fuel σ1 0 with
      | (σ2, ev1, some e) => (σ2, ev1, some e)
      | (σ2, ev1, none) =>
          match loop2 fuel σ2 (objKeys u) with
          | (σ3, ev2, r) => (σ3, ev1 ++ ev2, r)

/-- Phase 1 (src/index.js lines 24-29): `let currentListeners = listeners`
is an *alias* of the live `listeners` array — the closure variable is only
ever pushed to, never reassigned — so the loop bound
`i < currentListeners.length`, the element `currentListeners[i]` and the
`state` argument are all re-read from the current store on every step. -/
def loop1 : Nat → StoreState V → Nat → Res V
  | 0, σ, _ => (σ, [], some Exc.fuelOut)
  | fuel + 1, σ, i =>
      match σ.listeners.get? i with
      | none => (σ, [], none)
      | some ob =>
          let ev1 := Event.invoke ob.name false σ.state
          match runCmd fuel σ ob._li with
          | (σ1, evs1, some e) => (σ1, ev1 :: evs1, some e)
          | (σ1, evs1, none) =>
              match σ1.listeners.get? i with
              | none => (σ1, ev1 :: evs1, none)
              | some ob2 =>
                  let ev2 := Event.invoke ob2.name true σ1.state
                  match runCmd fuel σ1 ob2._ef with
                  | (σ2, evs2, some e) =>
                      (σ2, ev1 :: evs1 ++ ev2 :: evs2, some e)
                  | (σ2, evs2, none) =>
                      match loop1 fuel σ2 (i + 1) with
                      | (σ3, evs3, r) =>
                          (σ3, ev1 :: evs1 ++ ev2 :: evs2 ++ evs3, r)

/-- Phase 2 outer loop (src/index.js lines 31-41): iterate
`Object.keys(update)` in order; for each key currently present in
`onListeners`, run that key's observer list. -/
def loop2 : Nat → StoreState V → List Key → Res V
  | 0, σ, _ => (σ, [], some Exc.fuelOut)
  | _ + 1, σ, [] => (σ, [], none)
  | fuel + 1, σ, k :: rest =>
      if (alistGet σ.onListeners k).isSome then
        match loopSlice fuel σ k 0 with
        | (σ1, ev1, some e) => (σ1, ev1, some e)
        | (σ1, ev1, none) =>
            match loop2 fuel σ1 rest with
            | (σ2, ev2, r) => (σ2, ev1 ++ ev2, r)
      else
        loop2 fuel σ rest

/-- Phase 2 inner loop (src/index.js lines 35-40): the local
`let listeners = onListeners.get(_key)` aliases the live array for `_key`
(the array for an existing key is only ever pushed to, never replaced), so
the bound, the element and `state[_key]` are re-read every step. -/
def loopSlice : Nat → StoreState V → Key → Nat → Res V
  | 0, σ, _, _ => (σ, [], some Exc.fuelOut)
  | fuel + 1, σ, k, j =>
      match alistGet σ.onListeners k with
      | none => (σ, [], none)
      | some arr =>
          match arr.get? j with
          | none => (σ, [], none)
          | some ob =>
              let ev1 := Event.invokeSlice k ob.name false (alistGet σ.state k)
              match runCmd fuel σ ob._li with
              | (σ1, evs1, some e) => (σ1, ev1 :: evs1, some e)
              | (σ1, evs1, none) =>
                  match (alistGet σ1.onListeners k).bind (fun arr2 => arr2.get? j) with
                  | none => (σ1, ev1 :: evs1, none)
                  | some ob2 =>
                      let ev2 := Event.invokeSlice k ob2.name true (alistGet σ1.state k)
                      match runCmd fuel σ1 ob2._ef with
                      | (σ2, evs2, some e) =>
                          (σ2, ev1 :: evs1 ++ ev2 :: evs2, some e)
                      | (σ2, evs2, none) =>
                          match loopSlice fuel σ2 k (j + 1) with
                          | (σ3, evs3, r) =>
                              (σ3, ev1 :: evs1 ++ ev2 :: evs2 ++ evs3, r)

end

/-! ## Quiet callbacks and the shape of a fan-out trace

A *quiet* callback re-enters the store only through `getState` (or does
nothing): it neither mutates the store nor throws.  For a store whose
registered callbacks are all quiet, the fan-out of one `setState` call has
a closed-form trace: phase 1 over the whole-state listeners in insertion
order (`trace1`), then phase 2 over the update's keys in enumeration order
(`trace2`), `_li` before `_ef` at every observer. -/

/-- A callback that does not mutate the store and does not throw. -/
def Quiet (c : Cmd V) : Prop := c = Cmd.nop ∨ c = Cmd.getState

instance (c : Cmd V) [DecidableEq V] : Decidable (Quiet c) := by
  unfold Quiet; infer_instance

/-- The events a quiet callback itself produces when run against state
`s`. -/
def quietOut (c : Cmd V) (s : Obj V) : List (Event V) :=
  match c with
  | Cmd.getState => [Event.got s]
  | _ => []

/-- An observer record whose two callbacks are quiet. -/
def QuietOb (ob : Observer V) : Prop := Quiet ob._li ∧ Quiet ob._ef

instance (ob : Observer V) [DecidableEq V] : Decidable (QuietOb ob) := by
  unfold QuietOb; infer_instance

/-- Every slice observer stored in the map is quiet. -/
def QuietMap (m : List (Key × List (Observer V))) : Prop :=
  ∀ kv ∈ m, ∀ ob ∈ kv.2, QuietOb ob

instance (m : List (Key × List (Observer V))) [DecidableEq V] :
    Decidable (QuietMap m) := by
  unfold QuietMap; infer_instance

/-- Every observer registered in the store is quiet. -/
def QuietStore (σ : StoreState V) : Prop :=
  (∀ ob ∈ σ.listeners, QuietOb ob) ∧ QuietMap σ.onListeners

instance (σ : StoreState V) [DecidableEq V] : Decidable (QuietStore σ) := by
  unfold QuietStore; infer_instance

/-- The events of one whole-state observer's visit: `_li(state)` then
`_ef(state)` (src/index.js lines 27-28), each invocation followed by
whatever the callback itself emits. -/
def obTrace (s : Obj V) (ob : Observer V) : List (Event V) :=
  Event.invoke ob.name false s :: (quietOut ob._li s
    ++ Event.invoke ob.name true s :: quietOut ob._ef s)

/-- Phase 1 trace: the whole-state observer list in insertion order. -/
def trace1 (s : Obj V) (obs : List (Observer V)) : List (Event V) :=
  obs.flatMap (obTrace s)

/-- The events of one slice observer's visit: `_li(state[k])` then
`_ef(state[k])` (src/index.js lines 37-38). -/
def obSliceTrace (s : Obj V) (k : Key) (ob : Observer V) : List (Event V) :=
  Event.invokeSlice k ob.name false (alistGet s k) :: (quietOut ob._li s
    ++ Event.invokeSlice k ob.name true (alistGet s k) :: quietOut ob._ef s)

/-- Phase 2 trace: for each update key in enumeration order, the key's
registered observer list in insertion order (keys with no registered
observers contribute nothing). -/
def trace2 (s : Obj V) (m : List (Key × List (Observer V)))
    (keys : List Key) : List (Event V) :=
  keys.flatMap (fun k =>
    match alistGet m k with
    | none => []
    | some arr => arr.flatMap (obSliceTrace s k))

/-- Total number of registered slice observers, used for fuel bounds. -/
def sliceCount (m : List (Key × List (Observer V))) : Nat :=
  (m.map (fun kv => kv.2.length)).sum

section InterpLemmas

theorem get?_of_drop_cons {α : Type} :
    ∀ {l : List α} {n : Nat} {a : α} {rest : List α},
      l.drop n = a :: rest → l[n]? = some a := by
  intro l
  induction l with
  | nil => intro n a rest h; simp at h
  | cons x t ih =>
      intro n a rest h
      cases n with
      | zero => simp at h; simp [h.1]
      | succ n => simpa using ih (by simpa using h)

theorem drop_succ_of_drop_cons {α : Type} {l : List α} {n : Nat} {a : α}
    {rest : List α} (h : l.drop n = a :: rest) : l.drop (n + 1) = rest := by
  rw [← List.tail_drop, h]
  rfl

theorem get?_none_of_drop_nil {α : Type} {l : List α} {n : Nat}
    (h : l.drop n = []) : l[n]? = none := by
  rw [← List.get?_eq_getElem?]
  exact List.get?_eq_none.mpr (List.drop_eq_nil_iff.mp h)

theorem runCmd_quiet {c : Cmd V} {fuel : Nat} (σ : StoreState V)
    (hq : Quiet c) (hf : 1 ≤ fuel) :
    runCmd fuel σ c = (σ, quietOut c σ.state, none) := by
  obtain ⟨f, rfl⟩ : ∃ f, fuel = f + 1 := ⟨fuel - 1, by omega⟩
  rcases hq with h | h <;> subst h <;> simp [runCmd, quietOut, getState]

theorem loop1_quiet :
    ∀ (l : List (Observer V)) (σ : StoreState V) (i fuel : Nat),
      σ.listeners.drop i = l → (∀ ob ∈ l, QuietOb ob) →
      l.length + 2 ≤ fuel →
      loop1 fuel σ i = (σ, trace1 σ.state l, none) := by
  intro l
  induction l with
  | nil =>
      intro σ i fuel hdrop _ hf
      obtain ⟨f, rfl⟩ : ∃ f, fuel = f + 1 := ⟨fuel - 1, by omega⟩
      simp [loop1, get?_none_of_drop_nil hdrop, trace1]
  | cons ob rest ih =>
      intro σ i fuel hdrop hq hf
      obtain ⟨f, rfl⟩ : ∃ f, fuel = f + 1 := ⟨fuel - 1, by omega⟩
      have hget : σ.listeners[i]? = some ob := get?_of_drop_cons hdrop
      have hqob : QuietOb ob := hq ob (List.mem_cons_self _ _)
      have hf1 : 1 ≤ f := by omega
      have hli : runCmd f σ ob._li = (σ, quietOut ob._li σ.state, none) :=
        runCmd_quiet σ hqob.1 hf1
      have hef : runCmd f σ ob._ef = (σ, quietOut ob._ef σ.state, none) :=
        runCmd_quiet σ hqob.2 hf1
      have hrest : loop1 f σ (i + 1) = (σ, trace1 σ.state rest, none) :=
        ih σ (i + 1) f (drop_succ_of_drop_cons hdrop)
          (fun o ho => hq o (List.mem_cons_of_mem _ ho)) (by simp at hf ⊢; omega)
      simp [loop1, hget, hli, hef, hrest, trace1, obTrace]

theorem alistGet_mem {α : Type} :
    ∀ {m : List (Key × α)} {k : Key} {v : α},
      alistGet m k = some v → (k, v) ∈ m := by
  intro m
  induction m with
  | nil => intro k v h; simp [alistGet] at h
  | cons kv t ih =>
      intro k v h
      obtain ⟨k0, v0⟩ := kv
      by_cases hk : k0 = k
      · subst hk
        simp [alistGet] at h
        subst h
        exact List.mem_cons_self _ _
      · simp [alistGet, hk] at h
        exact List.mem_cons_of_mem _ (ih h)

theorem length_le_sliceCount {m : List (Key × List (Observer V))} {k : Key}
    {arr : List (Observer V)} (h : alistGet m k = some arr) :
    arr.length ≤ sliceCount m := by
  induction m with
  | nil => simp [alistGet] at h
  | cons kv t ih =>
      obtain ⟨k0, v0⟩ := kv
      by_cases hk : k0 = k
      · subst hk
        simp [alistGet] at h
        subst h
        simp [sliceCount]
      · simp [alistGet, hk] at h
        have := ih h
        simp [sliceCount] at this ⊢
        omega

theorem loopSlice_quiet :
    ∀ (l : List (Observer V)) (σ : StoreState V) (k : Key)
      (full : List (Observer V)) (j fuel : Nat),
      alistGet σ.onListeners k = some full → full.drop j = l →
      (∀ ob ∈ l, QuietOb ob) → l.length + 2 ≤ fuel →
      loopSlice fuel σ k j = (σ, l.flatMap (obSliceTrace σ.state k), none) := by
  intro l
  induction l with
  | nil =>
      intro σ k full j fuel hfull hdrop _ hf
      obtain ⟨f, rfl⟩ : ∃ f, fuel = f + 1 := ⟨fuel - 1, by omega⟩
      simp [loopSlice, hfull, get?_none_of_drop_nil hdrop]
  | cons ob rest ih =>
      intro σ k full j fuel hfull hdrop hq hf
      obtain ⟨f, rfl⟩ : ∃ f, fuel = f + 1 := ⟨fuel - 1, by omega⟩
      have hget : full[j]? = some ob := get?_of_drop_cons hdrop
      have hqob : QuietOb ob := hq ob (List.mem_cons_self _ _)
      have hf1 : 1 ≤ f := by omega
      have hli : runCmd f σ ob._li = (σ, quietOut ob._li σ.state, none) :=
        runCmd_quiet σ hqob.1 hf1
      have hef : runCmd f σ ob._ef = (σ, quietOut ob._ef σ.state, none) :=
        runCmd_quiet σ hqob.2 hf1
      have hrest : loopSlice f σ k (j + 1) =
          (σ, rest.flatMap (obSliceTrace σ.state k), none) :=
        ih σ k full (j + 1) f hfull (drop_succ_of_drop_cons hdrop)
          (fun o ho => hq o (List.mem_cons_of_mem _ ho)) (by simp at hf ⊢; omega)
      simp [loopSlice, hfull, hget, hli, hef, hrest, obSliceTrace]

theorem loop2_quiet :
    ∀ (keys : List Key) (σ : StoreState V) (fuel : Nat),
      QuietMap σ.onListeners →
      keys.length + sliceCount σ.onListeners + 2 ≤ fuel →
      loop2 fuel σ keys = (σ, trace2 σ.state σ.onListeners keys, none) := by
  intro keys
  induction keys with
  | nil =>
      intro σ fuel _ hf
      obtain ⟨f, rfl⟩ : ∃ f, fuel = f + 1 := ⟨fuel - 1, by omega⟩
      simp [loop2, trace2]
  | cons k rest ih =>
      intro σ fuel hq hf
      obtain ⟨f, rfl⟩ : ∃ f, fuel = f + 1 := ⟨fuel - 1, by omega⟩
      cases hk : alistGet σ.onListeners k with
      | none =>
          have hrest : loop2 f σ rest =
              (σ, trace2 σ.state σ.onListeners rest, none) :=
            ih σ f hq (by simp at hf ⊢; omega)
          simp [loop2, hk, hrest, trace2]
      | some arr =>
          have harrq : ∀ ob ∈ arr, QuietOb ob :=
            fun ob hob => hq (k, arr) (alistGet_mem hk) ob hob
          have harrlen : arr.length ≤ sliceCount σ.onListeners :=
            length_le_sliceCount hk
          have hslice : loopSlice f σ k 0 =
              (σ, arr.flatMap (obSliceTrace σ.state k), none) :=
            loopSlice_quiet arr σ k arr 0 f hk rfl harrq (by simp at hf ⊢; omega)
          have hrest : loop2 f σ rest =
              (σ, trace2 σ.state σ.onListeners rest, none) :=
            ih σ f hq (by simp at hf ⊢; omega)
          simp [loop2, hk, hslice, hrest, trace2]

/-- Master fan-out theorem: for a store whose registered observers are all
quiet, one `setState(u, ow)` call computes the merged state, runs phase 1
over the whole-state listeners in insertion order and then phase 2 over
`Object.keys(u)` in enumeration order, and returns normally. -/
theorem runSetState_quiet (σ : StoreState V) (u : Obj V) (ow : Bool)
    (fuel : Nat) (hq : QuietStore σ)
    (hf : σ.listeners.length + (objKeys u).length
            + sliceCount σ.onListeners + 3 ≤ fuel) :
    runSetState fuel σ u ow =
      ({σ with state := newState σ.state u ow},
        trace1 (newState σ.state u ow) σ.listeners
          ++ trace2 (newState σ.state u ow) σ.onListeners (objKeys u),
        none) := by
  obtain ⟨f, rfl⟩ : ∃ f, fuel = f + 1 := ⟨fuel - 1, by omega⟩
  set σ1 : StoreState V := { σ with state := newState σ.state u ow } with hσ1
  have hl : σ1.listeners = σ.listeners := rfl
  have hm : σ1.onListeners = σ.onListeners := rfl
  have h1 : loop1 f σ1 0 = (σ1, trace1 σ1.state σ1.listeners, none) :=
    loop1_quiet σ1.listeners σ1 0 f rfl (by rw [hl]; exact hq.1)
      (by rw [hl]; omega)
  have h2 : loop2 f σ1 (objKeys u) =
      (σ1, trace2 σ1.state σ1.onListeners (objKeys u), none) :=
    loop2_quiet (objKeys u) σ1 f (by rw [hm]; exact hq.2)
      (by rw [hm]; omega)
  simp [runSetState, ← hσ1, h1, h2, hl, hm]

theorem mem_quietOut {c : Cmd V} {s : Obj V} {ev : Event V}
    (h : ev ∈ quietOut c s) : ev = Event.got s := by
  cases c <;> simp_all [quietOut]

theorem mem_obTrace {s : Obj V} {ob : Observer V} {ev : Event V}
    (h : ev ∈ obTrace s ob) :
    ev = Event.invoke ob.name false s ∨ ev = Event.invoke ob.name true s ∨
      ev = Event.got s := by
  simp [obTrace] at h
  rcases h with h | h | h | h
  · exact Or.inl h
  · exact Or.inr (Or.inr (mem_quietOut h))
  · exact Or.inr (Or.inl h)
  · exact Or.inr (Or.inr (mem_quietOut h))

theorem mem_trace1 {s : Obj V} {obs : List (Observer V)} {ev : Event V}
    (h : ev ∈ trace1 s obs) :
    (∃ ob ∈ obs, ev = Event.invoke ob.name false s ∨
        ev = Event.invoke ob.name true s) ∨ ev = Event.got s := by
  rcases List.mem_flatMap.mp h with ⟨ob, hob, hev⟩
  rcases mem_obTrace hev with h1 | h1 | h1
  · exact Or.inl ⟨ob, hob, Or.inl h1⟩
  · exact Or.inl ⟨ob, hob, Or.inr h1⟩
  · exact Or.inr h1

theorem trace1_no_slice {s : Obj V} {obs : List (Observer V)} {k : Key}
    {n : Nat} {b : Bool} {p : Option V} :
    Event.invokeSlice k n b p ∉ trace1 s obs := by
  intro h
  rcases mem_trace1 h with ⟨ob, _, h1 | h1⟩ | h1 <;> simp at h1

theorem trace1_got {s x : Obj V} {obs : List (Observer V)}
    (h : Event.got x ∈ trace1 s obs) : x = s := by
  rcases mem_trace1 h with ⟨ob, _, h1 | h1⟩ | h1 <;> simp at h1
  exact h1

theorem invoke_mem_trace1 {s : Obj V} {obs : List (Observer V)}
    {ob : Observer V} (hob : ob ∈ obs) :
    Event.invoke ob.name false s ∈ trace1 s obs ∧
      Event.invoke ob.name true s ∈ trace1 s obs := by
  constructor <;> refine List.mem_flatMap.mpr ⟨ob, hob, ?_⟩ <;> simp [obTrace]

theorem got_mem_trace1 {s : Obj V} {obs : List (Observer V)}
    {ob : Observer V} (hob : ob ∈ obs) (hli : ob._li = Cmd.getState) :
    Event.got s ∈ trace1 s obs := by
  refine List.mem_flatMap.mpr ⟨ob, hob, ?_⟩
  simp [obTrace, hli, quietOut]

theorem mem_obSliceTrace {s : Obj V} {k : Key} {ob : Observer V}
    {ev : Event V} (h : ev ∈ obSliceTrace s k ob) :
    ev = Event.invokeSlice k ob.name false (alistGet s k) ∨
      ev = Event.invokeSlice k ob.name true (alistGet s k) ∨
      ev = Event.got s := by
  simp [obSliceTrace] at h
  rcases h with h | h | h | h
  · exact Or.inl h
  · exact Or.inr (Or.inr (mem_quietOut h))
  · exact Or.inr (Or.inl h)
  · exact Or.inr (Or.inr (mem_quietOut h))

theorem mem_trace2 {s : Obj V} {m : List (Key × List (Observer V))}
    {keys : List Key} {ev : Event V} (h : ev ∈ trace2 s m keys) :
    (∃ k ∈ keys, ∃ arr, alistGet m k = some arr ∧ ∃ ob ∈ arr,
        ev = Event.invokeSlice k ob.name false (alistGet s k) ∨
          ev = Event.invokeSlice k ob.name true (alistGet s k)) ∨
      ev = Event.got s := by
  rcases List.mem_flatMap.mp h with ⟨k, hk, hev⟩
  cases harr : alistGet m k with
  | none => rw [harr] at hev; simp at hev
  | some arr =>
      rw [harr] at hev
      simp only at hev
      rcases List.mem_flatMap.mp hev with ⟨ob, hob, hev2⟩
      rcases mem_obSliceTrace hev2 with h1 | h1 | h1
      · exact Or.inl ⟨k, hk, arr, harr, ob, hob, Or.inl h1⟩
      · exact Or.inl ⟨k, hk, arr, harr, ob, hob, Or.inr h1⟩
      · exact Or.inr h1

theorem trace2_slice_key {s : Obj V} {m : List (Key × List (Observer V))}
    {keys : List Key} {k : Key} {n : Nat} {b : Bool} {p : Option V}
    (h : Event.invokeSlice k n b p ∈ trace2 s m keys) :
    k ∈ keys ∧ (alistGet m k).isSome := by
  rcases mem_trace2 h with ⟨k', hk', arr, harr, ob, _, h1 | h1⟩ | h1
  · obtain ⟨rfl, -, -⟩ := Event.invokeSlice.inj h1
    exact ⟨hk', by simp [harr]⟩
  · obtain ⟨rfl, -, -⟩ := Event.invokeSlice.inj h1
    exact ⟨hk', by simp [harr]⟩
  · simp at h1

theorem trace2_got {s x : Obj V} {m : List (Key × List (Observer V))}
    {keys : List Key} (h : Event.got x ∈ trace2 s m keys) : x = s := by
  rcases mem_trace2 h with ⟨k', _, arr, _, ob, _, h1 | h1⟩ | h1
  · simp at h1
  · simp at h1
  · exact Event.got.inj h1

end InterpLemmas

/-! ## Claim theorems -/

/-- Claim C1: for every prior state S and update mapping U (well-formed
JavaScript objects, i.e. without duplicate keys), `setState(U)` with
`overwrite=false` produces a new state R with `R[k] = U[k]` when `k` is a
key of U, `R[k] = S[k]` when `k` is a key of S but not of U, and `k`
absent from R otherwise (`alistGet _ k = none` on both sides). -/
theorem claim_C1 (s u : Obj V) (k : Key) (hs : objNodup s)
    (hu : objNodup u) :
    alistGet (newState s u false) k =
      match alistGet u k with
      | some v => some v
      | none => alistGet s k := by
  have hns : newState s u false = assign (assign [] s) u := rfl
  rw [hns, alistGet_assign _ _ _ hu, assign_nil s hs]

theorem claim_C1_witness :
    objNodup ([("x", 1), ("y", 2)] : Obj Nat) ∧
    objNodup ([("y", 5), ("z", 7)] : Obj Nat) ∧
    (alistGet (newState [("x", 1), ("y", 2)] [("y", 5), ("z", 7)] false) "y" =
      match alistGet ([("y", 5), ("z", 7)] : Obj Nat) "y" with
      | some v => some v
      | none => alistGet ([("x", 1), ("y", 2)] : Obj Nat) "y") :=
  ⟨by decide, by decide,
    claim_C1 [("x", 1), ("y", 2)] [("y", 5), ("z", 7)] "y"
      (by decide) (by decide)⟩

/-- Claim C2: `setState(U, true)` makes the new current state equal U
exactly, independent of the prior state: the state expression
`overwrite ? update : ...` yields the update itself, and after the call
(here for a store whose observers are quiet, so that no callback changes
the state again) `getState()` returns U. -/
theorem claim_C2 (σ : StoreState V) (u : Obj V) (fuel : Nat)
    (hq : QuietStore σ)
    (hf : σ.listeners.length + (objKeys u).length
            + sliceCount σ.onListeners + 3 ≤ fuel) :
    getState (runSetState fuel σ u true).1 = u ∧
      ∀ (s : Obj V), newState s u true = u := by
  refine ⟨?_, fun s => rfl⟩
  rw [runSetState_quiet σ u true fuel hq hf]
  rfl

theorem claim_C2_witness :
    QuietStore (⟨[("old", 3)], [⟨0, Cmd.nop, Cmd.nop⟩], []⟩ : StoreState Nat) ∧
    (⟨[("old", 3)], [⟨0, Cmd.nop, Cmd.nop⟩], []⟩ : StoreState Nat).listeners.length
        + (objKeys [("a", 1)]).length
        + sliceCount (⟨[("old", 3)], [⟨0, Cmd.nop, Cmd.nop⟩], []⟩
            : StoreState Nat).onListeners + 3 ≤ 20 ∧
    (getState (runSetState 20
        (⟨[("old", 3)], [⟨0, Cmd.nop, Cmd.nop⟩], []⟩ : StoreState Nat)
        [("a", 1)] true).1 = [("a", 1)] ∧
      ∀ (s : Obj Nat), newState s [("a", 1)] true = [("a", 1)]) :=
  ⟨by decide, by decide,
    claim_C2 ⟨[("old", 3)], [⟨0, Cmd.nop, Cmd.nop⟩], []⟩ [("a", 1)] 20
      (by decide) (by decide)⟩

/-- Claim C3: every `setState` call (here over quiet observers, which is
what the claim's scenario instantiates) fans out in two fixed phases:
first every whole-state observer in insertion order, `_li` then `_ef`,
each receiving the new state; then for each key of the update in the
update's own enumeration order that has registered slice observers, that
key's observers in insertion order, `_li` then `_ef`, each receiving the
new state's value at that key.  The witness instantiates the claim's
particular scenario: one whole-state subscriber W (name 0) and one slice
observer L (name 1) on key "a"; `setState({a: 1})` invokes W before L. -/
theorem claim_C3 (σ : StoreState V) (u : Obj V) (ow : Bool) (fuel : Nat)
    (hq : QuietStore σ)
    (hf : σ.listeners.length + (objKeys u).length
            + sliceCount σ.onListeners + 3 ≤ fuel) :
    runSetState fuel σ u ow =
      ({σ with state := newState σ.state u ow},
        trace1 (newState σ.state u ow) σ.listeners
          ++ trace2 (newState σ.state u ow) σ.onListeners (objKeys u),
        none) :=
  runSetState_quiet σ u ow fuel hq hf

theorem claim_C3_witness :
    QuietStore (⟨[], [⟨0, Cmd.nop, Cmd.nop⟩],
        [("a", [⟨1, Cmd.nop, Cmd.nop⟩])]⟩ : StoreState Nat) ∧
    (⟨[], [⟨0, Cmd.nop, Cmd.nop⟩], [("a", [⟨1, Cmd.nop, Cmd.nop⟩])]⟩
        : StoreState Nat).listeners.length + (objKeys [("a", 1)]).length
      + sliceCount (⟨[], [⟨0, Cmd.nop, Cmd.nop⟩],
          [("a", [⟨1, Cmd.nop, Cmd.nop⟩])]⟩ : StoreState Nat).onListeners
      + 3 ≤ 20 ∧
    runSetState 20 (⟨[], [⟨0, Cmd.nop, Cmd.nop⟩],
        [("a", [⟨1, Cmd.nop, Cmd.nop⟩])]⟩ : StoreState Nat) [("a", 1)] false =
      ({(⟨[], [⟨0, Cmd.nop, Cmd.nop⟩], [("a", [⟨1, Cmd.nop, Cmd.nop⟩])]⟩
            : StoreState Nat) with
          state := newState [] [("a", 1)] false},
        trace1 (newState [] [("a", 1)] false) [⟨0, Cmd.nop, Cmd.nop⟩]
          ++ trace2 (newState [] [("a", 1)] false)
              [("a", [⟨1, Cmd.nop, Cmd.nop⟩])] (objKeys [("a", 1)]),
        none) ∧
    (runSetState 20 (⟨[], [⟨0, Cmd.nop, Cmd.nop⟩],
        [("a", [⟨1, Cmd.nop, Cmd.nop⟩])]⟩ : StoreState Nat) [("a", 1)] false).2.1 =
      [Event.invoke 0 false [("a", 1)], Event.invoke 0 true [("a", 1)],
        Event.invokeSlice "a" 1 false (some 1),
        Event.invokeSlice "a" 1 true (some 1)] :=
  ⟨by decide, by decide,
    claim_C3 ⟨[], [⟨0, Cmd.nop, Cmd.nop⟩], [("a", [⟨1, Cmd.nop, Cmd.nop⟩])]⟩
      [("a", 1)] false 20 (by decide) (by decide),
    by decide⟩

theorem loop1_step {fuel : Nat} {σ : StoreState V} {i : Nat}
    {ob : Observer V} (hget : σ.listeners[i]? = some ob)
    {σ1 : StoreState V} {evs1 : List (Event V)}
    (hli : runCmd fuel σ ob._li = (σ1, evs1, none))
    {ob2 : Observer V} (hget2 : σ1.listeners[i]? = some ob2)
    {σ2 : StoreState V} {evs2 : List (Event V)}
    (hef : runCmd fuel σ1 ob2._ef = (σ2, evs2, none))
    {σ3 : StoreState V} {evs3 : List (Event V)} {r : Option Exc}
    (hrest : loop1 fuel σ2 (i + 1) = (σ3, evs3, r)) :
    loop1 (fuel + 1) σ i =
      (σ3, Event.invoke ob.name false σ.state
        :: (evs1 ++ Event.invoke ob2.name true σ1.state :: (evs2 ++ evs3)), r) := by
  simp [loop1, hget, hli, hget2, hef, hrest]

theorem trace2_empty_map (s : Obj V) (keys : List Key) :
    trace2 s [] keys = [] := by
  induction keys with
  | nil => rfl
  | cons k rest ih =>
      show (match alistGet ([] : List (Key × List (Observer V))) k with
        | none => []
        | some arr => arr.flatMap (obSliceTrace s k)) ++ trace2 s [] rest = []
      rw [ih]
      rfl

theorem loop1_throw_li :
    ∀ (pre : List (Observer V)) (σ : StoreState V) (i fuel : Nat)
      (T : Observer V) (post : List (Observer V)) (e : Nat),
      σ.listeners.drop i = pre ++ T :: post → (∀ ob ∈ pre, QuietOb ob) →
      T._li = Cmd.throwErr e → pre.length + 2 ≤ fuel →
      loop1 fuel σ i =
        (σ, trace1 σ.state pre ++ [Event.invoke T.name false σ.state],
          some (Exc.thrown e)) := by
  intro pre
  induction pre with
  | nil =>
      intro σ i fuel T post e hdrop _ hT hf
      obtain ⟨f, rfl⟩ : ∃ f, fuel = f + 1 := ⟨fuel - 1, by omega⟩
      obtain ⟨f', rfl⟩ : ∃ f', f = f' + 1 := ⟨f - 1, by omega⟩
      have hget : σ.listeners[i]? = some T := get?_of_drop_cons hdrop
      have hrc : runCmd (f' + 1) σ T._li = (σ, [], some (Exc.thrown e)) := by
        rw [hT]; simp [runCmd]
      simp [loop1, hget, hrc, trace1]
  | cons ob rest ih =>
      intro σ i fuel T post e hdrop hq hT hf
      obtain ⟨f, rfl⟩ : ∃ f, fuel = f + 1 := ⟨fuel - 1, by omega⟩
      have hget : σ.listeners[i]? = some ob := get?_of_drop_cons hdrop
      have hqob : QuietOb ob := hq ob (List.mem_cons_self _ _)
      have hf1 : 1 ≤ f := by omega
      have hli : runCmd f σ ob._li = (σ, quietOut ob._li σ.state, none) :=
        runCmd_quiet σ hqob.1 hf1
      have hef : runCmd f σ ob._ef = (σ, quietOut ob._ef σ.state, none) :=
        runCmd_quiet σ hqob.2 hf1
      have hrest := ih σ (i + 1) f T post e (drop_succ_of_drop_cons hdrop)
        (fun o ho => hq o (List.mem_cons_of_mem _ ho)) hT (by simp at hf ⊢; omega)
      simp [loop1, hget, hli, hef, hrest, trace1, obTrace]

theorem loop1_throw_ef :
    ∀ (pre : List (Observer V)) (σ : StoreState V) (i fuel : Nat)
      (T : Observer V) (post : List (Observer V)) (e : Nat),
      σ.listeners.drop i = pre ++ T :: post → (∀ ob ∈ pre, QuietOb ob) →
      Quiet T._li → T._ef = Cmd.throwErr e → pre.length + 2 ≤ fuel →
      loop1 fuel σ i =
        (σ, trace1 σ.state pre ++ Event.invoke T.name false σ.state
            :: (quietOut T._li σ.state ++ [Event.invoke T.name true σ.state]),
          some (Exc.thrown e)) := by
  intro pre
  induction pre with
  | nil =>
      intro σ i fuel T post e hdrop _ hTli hT hf
      obtain ⟨f, rfl⟩ : ∃ f, fuel = f + 1 := ⟨fuel - 1, by omega⟩
      obtain ⟨f', rfl⟩ : ∃ f', f = f' + 1 := ⟨f - 1, by omega⟩
      have hget : σ.listeners[i]? = some T := get?_of_drop_cons hdrop
      have hli : runCmd (f' + 1) σ T._li = (σ, quietOut T._li σ.state, none) :=
        runCmd_quiet σ hTli (by omega)
      have hrc : runCmd (f' + 1) σ T._ef = (σ, [], some (Exc.thrown e)) := by
        rw [hT]; simp [runCmd]
      simp [loop1, hget, hli, hrc, trace1]
  | cons ob rest ih =>
      intro σ i fuel T post e hdrop hq hTli hT hf
      obtain ⟨f, rfl⟩ : ∃ f, fuel = f + 1 := ⟨fuel - 1, by omega⟩
      have hget : σ.listeners[i]? = some ob := get?_of_drop_cons hdrop
      have hqob : QuietOb ob := hq ob (List.mem_cons_self _ _)
      have hf1 : 1 ≤ f := by omega
      have hli : runCmd f σ ob._li = (σ, quietOut ob._li σ.state, none) :=
        runCmd_quiet σ hqob.1 hf1
      have hef : runCmd f σ ob._ef = (σ, quietOut ob._ef σ.state, none) :=
        runCmd_quiet σ hqob.2 hf1
      have hrest := ih σ (i + 1) f T post e (drop_succ_of_drop_cons hdrop)
        (fun o ho => hq o (List.mem_cons_of_mem _ ho)) hTli hT
        (by simp at hf ⊢; omega)
      simp [loop1, hget, hli, hef, hrest, trace1, obTrace]

theorem loopSlice_throw_li :
    ∀ (pre : List (Observer V)) (σ : StoreState V) (k : Key)
      (full : List (Observer V)) (j fuel : Nat) (T : Observer V)
      (post : List (Observer V)) (e : Nat),
      alistGet σ.onListeners k = some full →
      full.drop j = pre ++ T :: post → (∀ ob ∈ pre, QuietOb ob) →
      T._li = Cmd.throwErr e → pre.length + 2 ≤ fuel →
      loopSlice fuel σ k j =
        (σ, pre.flatMap (obSliceTrace σ.state k)
            ++ [Event.invokeSlice k T.name false (alistGet σ.state k)],
          some (Exc.thrown e)) := by
  intro pre
  induction pre with
  | nil =>
      intro σ k full j fuel T post e hfull hdrop _ hT hf
      obtain ⟨f, rfl⟩ : ∃ f, fuel = f + 1 := ⟨fuel - 1, by omega⟩
      obtain ⟨f', rfl⟩ : ∃ f', f = f' + 1 := ⟨f - 1, by omega⟩
      have hget : full[j]? = some T := get?_of_drop_cons hdrop
      have hrc : runCmd (f' + 1) σ T._li = (σ, [], some (Exc.thrown e)) := by
        rw [hT]; simp [runCmd]
      simp [loopSlice, hfull, hget, hrc]
  | cons ob rest ih =>
      intro σ k full j fuel T post e hfull hdrop hq hT hf
      obtain ⟨f, rfl⟩ : ∃ f, fuel = f + 1 := ⟨fuel - 1, by omega⟩
      have hget : full[j]? = some ob := get?_of_drop_cons hdrop
      have hqob : QuietOb ob := hq ob (List.mem_cons_self _ _)
      have hf1 : 1 ≤ f := by omega
      have hli : runCmd f σ ob._li = (σ, quietOut ob._li σ.state, none) :=
        runCmd_quiet σ hqob.1 hf1
      have hef : runCmd f σ ob._ef = (σ, quietOut ob._ef σ.state, none) :=
        runCmd_quiet σ hqob.2 hf1
      have hrest := ih σ k full (j + 1) f T post e hfull
        (drop_succ_of_drop_cons hdrop)
        (fun o ho => hq o (List.mem_cons_of_mem _ ho)) hT (by simp at hf ⊢; omega)
      simp [loopSlice, hfull, hget, hli, hef, hrest, obSliceTrace]

theorem loopSlice_throw_ef :
    ∀ (pre : List (Observer V)) (σ : StoreState V) (k : Key)
      (full : List (Observer V)) (j fuel : Nat) (T : Observer V)
      (post : List (Observer V)) (e : Nat),
      alistGet σ.onListeners k = some full →
      full.drop j = pre ++ T :: post → (∀ ob ∈ pre, QuietOb ob) →
      Quiet T._li → T._ef = Cmd.throwErr e → pre.length + 2 ≤ fuel →
      loopSlice fuel σ k j =
        (σ, pre.flatMap (obSliceTrace σ.state k)
            ++ Event.invokeSlice k T.name false (alistGet σ.state k)
            :: (quietOut T._li σ.state
              ++ [Event.invokeSlice k T.name true (alistGet σ.state k)]),
          some (Exc.thrown e)) := by
  intro pre
  induction pre with
  | nil =>
      intro σ k full j fuel T post e hfull hdrop _ hTli hT hf
      obtain ⟨f, rfl⟩ : ∃ f, fuel = f + 1 := ⟨fuel - 1, by omega⟩
      obtain ⟨f', rfl⟩ : ∃ f', f = f' + 1 := ⟨f - 1, by omega⟩
      have hget : full[j]? = some T := get?_of_drop_cons hdrop
      have hli : runCmd (f' + 1) σ T._li = (σ, quietOut T._li σ.state, none) :=
        runCmd_quiet σ hTli (by omega)
      have hrc : runCmd (f' + 1) σ T._ef = (σ, [], some (Exc.thrown e)) := by
        rw [hT]; simp [runCmd]
      simp [loopSlice, hfull, hget, hli, hrc]
  | cons ob rest ih =>
      intro σ k full j fuel T post e hfull hdrop hq hTli hT hf
      obtain ⟨f, rfl⟩ : ∃ f, fuel = f + 1 := ⟨fuel - 1, by omega⟩
      have hget : full[j]? = some ob := get?_of_drop_cons hdrop
      have hqob : QuietOb ob := hq ob (List.mem_cons_self _ _)
      have hf1 : 1 ≤ f := by omega
      have hli : runCmd f σ ob._li = (σ, quietOut ob._li σ.state, none) :=
        runCmd_quiet σ hqob.1 hf1
      have hef : runCmd f σ ob._ef = (σ, quietOut ob._ef σ.state, none) :=
        runCmd_quiet σ hqob.2 hf1
      have hrest := ih σ k full (j + 1) f T post e hfull
        (drop_succ_of_drop_cons hdrop)
        (fun o ho => hq o (List.mem_cons_of_mem _ ho)) hTli hT
        (by simp at hf ⊢; omega)
      simp [loopSlice, hfull, hget, hli, hef, hrest, obSliceTrace]

theorem loop2_throw :
    ∀ (ks1 : List Key) (σ : StoreState V) (fuel : Nat) (kk : Key)
      (ks2 : List Key) (arr preA : List (Observer V)) (T : Observer V)
      (postA : List (Observer V)) (e : Nat),
      (∀ k' ∈ ks1, ∀ arr', alistGet σ.onListeners k' = some arr' →
        ∀ ob ∈ arr', QuietOb ob) →
      alistGet σ.onListeners kk = some arr → arr = preA ++ T :: postA →
      (∀ ob ∈ preA, QuietOb ob) → T._li = Cmd.throwErr e →
      ks1.length + 2 * sliceCount σ.onListeners + 2 ≤ fuel →
      loop2 fuel σ (ks1 ++ kk :: ks2) =
        (σ, trace2 σ.state σ.onListeners ks1
            ++ (preA.flatMap (obSliceTrace σ.state kk)
              ++ [Event.invokeSlice kk T.name false (alistGet σ.state kk)]),
          some (Exc.thrown e)) := by
  intro ks1
  induction ks1 with
  | nil =>
      intro σ fuel kk ks2 arr preA T postA e _ harr hsplit hqpre hT hf
      obtain ⟨f, rfl⟩ : ∃ f, fuel = f + 1 := ⟨fuel - 1, by omega⟩
      have hlen : arr.length ≤ sliceCount σ.onListeners :=
        length_le_sliceCount harr
      have hlen2 : arr.length = preA.length + 1 + postA.length := by
        simp [hsplit]; omega
      have hthrow : loopSlice f σ kk 0 =
          (σ, preA.flatMap (obSliceTrace σ.state kk)
              ++ [Event.invokeSlice kk T.name false (alistGet σ.state kk)],
            some (Exc.thrown e)) :=
        loopSlice_throw_li preA σ kk arr 0 f T postA e harr
          (by simpa using hsplit) hqpre hT (by omega)
      simp [loop2, harr, hthrow, trace2]
  | cons k' rest ih =>
      intro σ fuel kk ks2 arr preA T postA e hq harr hsplit hqpre hT hf
      obtain ⟨f, rfl⟩ : ∃ f, fuel = f + 1 := ⟨fuel - 1, by omega⟩
      have hrest := ih σ f kk ks2 arr preA T postA e
        (fun x hx => hq x (List.mem_cons_of_mem _ hx)) harr hsplit hqpre hT
        (by simp at hf ⊢; omega)
      cases hk : alistGet σ.onListeners k' with
      | none => simp [loop2, hk, hrest, trace2]
      | some arr' =>
          have harrq : ∀ ob ∈ arr', QuietOb ob :=
            hq k' (List.mem_cons_self _ _) arr' hk
          have hlen' : arr'.length ≤ sliceCount σ.onListeners :=
            length_le_sliceCount hk
          have hslice : loopSlice f σ k' 0 =
              (σ, arr'.flatMap (obSliceTrace σ.state k'), none) :=
            loopSlice_quiet arr' σ k' arr' 0 f hk rfl harrq
              (by simp at hf; omega)
          simp [loop2, hk, hslice, hrest, trace2]

theorem loop2_throw_ef :
    ∀ (ks1 : List Key) (σ : StoreState V) (fuel : Nat) (kk : Key)
      (ks2 : List Key) (arr preA : List (Observer V)) (T : Observer V)
      (postA : List (Observer V)) (e : Nat),
      (∀ k' ∈ ks1, ∀ arr', alistGet σ.onListeners k' = some arr' →
        ∀ ob ∈ arr', QuietOb ob) →
      alistGet σ.onListeners kk = some arr → arr = preA ++ T :: postA →
      (∀ ob ∈ preA, QuietOb ob) → Quiet T._li → T._ef = Cmd.throwErr e →
      ks1.length + 2 * sliceCount σ.onListeners + 2 ≤ fuel →
      loop2 fuel σ (ks1 ++ kk :: ks2) =
        (σ, trace2 σ.state σ.onListeners ks1
            ++ (preA.flatMap (obSliceTrace σ.state kk)
              ++ Event.invokeSlice kk T.name false (alistGet σ.state kk)
              :: (quietOut T._li σ.state
                ++ [Event.invokeSlice kk T.name true (alistGet σ.state kk)])),
          some (Exc.thrown e)) := by
  intro ks1
  induction ks1 with
  | nil =>
      intro σ fuel kk ks2 arr preA T postA e _ harr hsplit hqpre hTli hT hf
      obtain ⟨f, rfl⟩ : ∃ f, fuel = f + 1 := ⟨fuel - 1, by omega⟩
      have hlen : arr.length ≤ sliceCount σ.onListeners :=
        length_le_sliceCount harr
      have hlen2 : arr.length = preA.length + 1 + postA.length := by
        simp [hsplit]; omega
      have hthrow : loopSlice f σ kk 0 =
          (σ, preA.flatMap (obSliceTrace σ.state kk)
              ++ Event.invokeSlice kk T.name false (alistGet σ.state kk)
              :: (quietOut T._li σ.state
                ++ [Event.invokeSlice kk T.name true (alistGet σ.state kk)]),
            some (Exc.thrown e)) :=
        loopSlice_throw_ef preA σ kk arr 0 f T postA e harr
          (by simpa using hsplit) hqpre hTli hT (by omega)
      simp [loop2, harr, hthrow, trace2]
  | cons k' rest ih =>
      intro σ fuel kk ks2 arr preA T postA e hq harr hsplit hqpre hTli hT hf
      obtain ⟨f, rfl⟩ : ∃ f, fuel = f + 1 := ⟨fuel - 1, by omega⟩
      have hrest := ih σ f kk ks2 arr preA T postA e
        (fun x hx => hq x (List.mem_cons_of_mem _ hx)) harr hsplit hqpre
        hTli hT (by simp at hf ⊢; omega)
      cases hk : alistGet σ.onListeners k' with
      | none => simp [loop2, hk, hrest, trace2]
      | some arr' =>
          have harrq : ∀ ob ∈ arr', QuietOb ob :=
            hq k' (List.mem_cons_self _ _) arr' hk
          have hlen' : arr'.length ≤ sliceCount σ.onListeners :=
            length_le_sliceCount hk
          have hslice : loopSlice f σ k' 0 =
              (σ, arr'.flatMap (obSliceTrace σ.state k'), none) :=
            loopSlice_quiet arr' σ k' arr' 0 f hk rfl harrq
              (by simp at hf; omega)
          simp [loop2, hk, hslice, hrest, trace2]

/-- Claim C4 counterexample: a store with a single whole-state observer
(name 1) whose `onChange` subscribes a new observer (name 2).  The claim
says the outer pass iterates a snapshot and must not invoke observer 2;
the code's `currentListeners` is an alias of the live `listeners` array,
so the outer pass does invoke observer 2: its `invoke` events appear in
this very pass's trace. -/
theorem claim_C4_counterexample :
    (runSetState 10
        (⟨[], [⟨1, Cmd.subscribe 2 Cmd.nop Cmd.nop, Cmd.nop⟩], []⟩
          : StoreState Nat) [] false).2.1 =
      [Event.invoke 1 false [], Event.invoke 1 true [],
        Event.invoke 2 false [], Event.invoke 2 true []] ∧
    Event.invoke 2 false [] ∈
      (runSetState 10
        (⟨[], [⟨1, Cmd.subscribe 2 Cmd.nop Cmd.nop, Cmd.nop⟩], []⟩
          : StoreState Nat) [] false).2.1 ∧
    (runSetState 10
        (⟨[], [⟨1, Cmd.subscribe 2 Cmd.nop Cmd.nop, Cmd.nop⟩], []⟩
          : StoreState Nat) [] false).2.2 = none := by
  decide

/-- Claim C4, amended: `currentListeners` is an alias of the live
`listeners` array (which is only ever pushed to, never reassigned), not a
snapshot, and the loop bound `i < currentListeners.length` is re-evaluated
every iteration; hence an observer registered via `subscribe` during a
fan-out pass, at an index the iteration has not yet reached, IS invoked by
the outer pass itself (and remains registered for subsequent calls).
Proved for one whole-state observer (name `n1`) whose `onChange`
subscribes a new observer (name `n2`, quiet callbacks `cl`, `ce`): the
outer pass's trace continues with the full visit of observer `n2`, and the
new observer stays in the listener list. -/
theorem claim_C4 (s u : Obj V) (cl ce : Cmd V) (n1 n2 : Nat) (fuel : Nat)
    (hcl : Quiet cl) (hce : Quiet ce)
    (hf : (objKeys u).length + 6 ≤ fuel) :
    runSetState fuel
        (⟨s, [⟨n1, Cmd.subscribe n2 cl ce, Cmd.nop⟩], []⟩ : StoreState V)
        u false =
      (⟨newState s u false,
          [⟨n1, Cmd.subscribe n2 cl ce, Cmd.nop⟩, ⟨n2, cl, ce⟩], []⟩,
        Event.invoke n1 false (newState s u false)
          :: Event.invoke n1 true (newState s u false)
          :: trace1 (newState s u false) [⟨n2, cl, ce⟩],
        none) ∧
    Event.invoke n2 false (newState s u false) ∈
      (runSetState fuel
        (⟨s, [⟨n1, Cmd.subscribe n2 cl ce, Cmd.nop⟩], []⟩ : StoreState V)
        u false).2.1 := by
  obtain ⟨f, rfl⟩ : ∃ f, fuel = f + 1 := ⟨fuel - 1, by omega⟩
  obtain ⟨g, rfl⟩ : ∃ g, f = g + 1 := ⟨f - 1, by omega⟩
  obtain ⟨h, rfl⟩ : ∃ h, g = h + 1 := ⟨g - 1, by omega⟩
  have hA : (⟨newState s u false,
      [⟨n1, Cmd.subscribe n2 cl ce, Cmd.nop⟩], []⟩ : StoreState V).listeners[0]?
      = some ⟨n1, Cmd.subscribe n2 cl ce, Cmd.nop⟩ := rfl
  have hsub : runCmd (h + 1)
      (⟨newState s u false, [⟨n1, Cmd.subscribe n2 cl ce, Cmd.nop⟩], []⟩
        : StoreState V) (Cmd.subscribe n2 cl ce) =
      (⟨newState s u false,
        [⟨n1, Cmd.subscribe n2 cl ce, Cmd.nop⟩, ⟨n2, cl, ce⟩], []⟩, [], none) := by
    simp [runCmd]
  have hnop : runCmd (h + 1)
      (⟨newState s u false,
        [⟨n1, Cmd.subscribe n2 cl ce, Cmd.nop⟩, ⟨n2, cl, ce⟩], []⟩
        : StoreState V) Cmd.nop =
      (⟨newState s u false,
        [⟨n1, Cmd.subscribe n2 cl ce, Cmd.nop⟩, ⟨n2, cl, ce⟩], []⟩, [], none) := by
    simp [runCmd]
  have hloopB : loop1 (h + 1)
      (⟨newState s u false,
        [⟨n1, Cmd.subscribe n2 cl ce, Cmd.nop⟩, ⟨n2, cl, ce⟩], []⟩
        : StoreState V) 1 =
      (⟨newState s u false,
        [⟨n1, Cmd.subscribe n2 cl ce, Cmd.nop⟩, ⟨n2, cl, ce⟩], []⟩,
        trace1 (newState s u false) [⟨n2, cl, ce⟩], none) := by
    have := loop1_quiet (V := V) [⟨n2, cl, ce⟩]
      ⟨newState s u false,
        [⟨n1, Cmd.subscribe n2 cl ce, Cmd.nop⟩, ⟨n2, cl, ce⟩], []⟩
      1 (h + 1) rfl (by intro ob hob; simp at hob; subst hob; exact ⟨hcl, hce⟩)
      (by simp; omega)
    simpa using this
  have hloop1 : loop1 (h + 1 + 1)
      (⟨newState s u false, [⟨n1, Cmd.subscribe n2 cl ce, Cmd.nop⟩], []⟩
        : StoreState V) 0 =
      (⟨newState s u false,
        [⟨n1, Cmd.subscribe n2 cl ce, Cmd.nop⟩, ⟨n2, cl, ce⟩], []⟩,
        Event.invoke n1 false (newState s u false)
          :: Event.invoke n1 true (newState s u false)
          :: trace1 (newState s u false) [⟨n2, cl, ce⟩],
        none) := by
    have hget2 : (⟨newState s u false,
        [⟨n1, Cmd.subscribe n2 cl ce, Cmd.nop⟩, ⟨n2, cl, ce⟩], []⟩
          : StoreState V).listeners[0]? =
        some ⟨n1, Cmd.subscribe n2 cl ce, Cmd.nop⟩ := rfl
    have := loop1_step hA hsub hget2 hnop hloopB
    simpa using this
  have hloop2 : loop2 (h + 1 + 1)
      (⟨newState s u false,
        [⟨n1, Cmd.subscribe n2 cl ce, Cmd.nop⟩, ⟨n2, cl, ce⟩], []⟩
        : StoreState V) (objKeys u) =
      (⟨newState s u false,
        [⟨n1, Cmd.subscribe n2 cl ce, Cmd.nop⟩, ⟨n2, cl, ce⟩], []⟩, [], none) := by
    have := loop2_quiet (V := V) (objKeys u)
      ⟨newState s u false,
        [⟨n1, Cmd.subscribe n2 cl ce, Cmd.nop⟩, ⟨n2, cl, ce⟩], []⟩
      (h + 1 + 1) (by intro kv hkv; simp at hkv)
      (by simp [sliceCount]; omega)
    rw [trace2_empty_map] at this
    exact this
  have hmain : runSetState (h + 1 + 1 + 1)
      (⟨s, [⟨n1, Cmd.subscribe n2 cl ce, Cmd.nop⟩], []⟩ : StoreState V)
      u false =
      (⟨newState s u false,
          [⟨n1, Cmd.subscribe n2 cl ce, Cmd.nop⟩, ⟨n2, cl, ce⟩], []⟩,
        Event.invoke n1 false (newState s u false)
          :: Event.invoke n1 true (newState s u false)
          :: trace1 (newState s u false) [⟨n2, cl, ce⟩],
        none) := by
    simp [runSetState, hloop1, hloop2]
  refine ⟨hmain, ?_⟩
  rw [hmain]
  exact List.mem_cons_of_mem _ (List.mem_cons_of_mem _
    (invoke_mem_trace1 (List.mem_singleton.mpr rfl)).1)

theorem claim_C4_witness :
    Quiet (Cmd.nop : Cmd Nat) ∧
    (objKeys ([("a", 1)] : Obj Nat)).length + 6 ≤ 10 ∧
    (runSetState 10
        (⟨[], [⟨1, Cmd.subscribe 2 Cmd.nop Cmd.nop, Cmd.nop⟩], []⟩
          : StoreState Nat) [("a", 1)] false =
      (⟨newState [] [("a", 1)] false,
          [⟨1, Cmd.subscribe 2 Cmd.nop Cmd.nop, Cmd.nop⟩, ⟨2, Cmd.nop, Cmd.nop⟩],
          []⟩,
        Event.invoke 1 false (newState [] [("a", 1)] false)
          :: Event.invoke 1 true (newState [] [("a", 1)] false)
          :: trace1 (newState [] [("a", 1)] false) [⟨2, Cmd.nop, Cmd.nop⟩],
        none) ∧
      Event.invoke 2 false (newState [] [("a", 1)] false) ∈
        (runSetState 10
          (⟨[], [⟨1, Cmd.subscribe 2 Cmd.nop Cmd.nop, Cmd.nop⟩], []⟩
            : StoreState Nat) [("a", 1)] false).2.1) :=
  ⟨by decide, by decide,
    claim_C4 [] [("a", 1)] Cmd.nop Cmd.nop 1 2 10
      (by decide) (by decide) (by decide)⟩

/-- Claim C5: if an observer callback invoked during a `setState` fan-out
throws, the exception propagates synchronously out of `setState` (the run
ends with `some (Exc.thrown e)`) and the remainder of the fan-out is
aborted: the trace ends at the throwing invocation, so no observer not yet
visited in the current phase — nor anything in a later phase — is invoked.
Four conjuncts, one per throwing callback kind: a whole-state observer's
`_li`, a whole-state observer's `_ef`, a slice observer's `_li`, and a
slice observer's `_ef` (observers before the thrower being quiet in each
case). -/
theorem claim_C5 :
    (∀ (σ : StoreState V) (u : Obj V) (ow : Bool) (fuel : Nat)
      (pre : List (Observer V)) (T : Observer V) (post : List (Observer V))
      (e : Nat),
      σ.listeners = pre ++ T :: post → (∀ ob ∈ pre, QuietOb ob) →
      T._li = Cmd.throwErr e → pre.length + 3 ≤ fuel →
      runSetState fuel σ u ow =
        ({σ with state := newState σ.state u ow},
          trace1 (newState σ.state u ow) pre
            ++ [Event.invoke T.name false (newState σ.state u ow)],
          some (Exc.thrown e))) ∧
    (∀ (σ : StoreState V) (u : Obj V) (ow : Bool) (fuel : Nat)
      (pre : List (Observer V)) (T : Observer V) (post : List (Observer V))
      (e : Nat),
      σ.listeners = pre ++ T :: post → (∀ ob ∈ pre, QuietOb ob) →
      Quiet T._li → T._ef = Cmd.throwErr e → pre.length + 3 ≤ fuel →
      runSetState fuel σ u ow =
        ({σ with state := newState σ.state u ow},
          trace1 (newState σ.state u ow) pre
            ++ Event.invoke T.name false (newState σ.state u ow)
            :: (quietOut T._li (newState σ.state u ow)
              ++ [Event.invoke T.name true (newState σ.state u ow)]),
          some (Exc.thrown e))) ∧
    (∀ (σ : StoreState V) (u : Obj V) (ow : Bool) (fuel : Nat)
      (ks1 : List Key) (kk : Key) (ks2 : List Key)
      (arr preA : List (Observer V)) (T : Observer V)
      (postA : List (Observer V)) (e : Nat),
      (∀ ob ∈ σ.listeners, QuietOb ob) →
      (∀ k' ∈ ks1, ∀ arr', alistGet σ.onListeners k' = some arr' →
        ∀ ob ∈ arr', QuietOb ob) →
      objKeys u = ks1 ++ kk :: ks2 →
      alistGet σ.onListeners kk = some arr → arr = preA ++ T :: postA →
      (∀ ob ∈ preA, QuietOb ob) → T._li = Cmd.throwErr e →
      σ.listeners.length + ks1.length
          + 2 * sliceCount σ.onListeners + 4 ≤ fuel →
      runSetState fuel σ u ow =
        ({σ with state := newState σ.state u ow},
          trace1 (newState σ.state u ow) σ.listeners
            ++ (trace2 (newState σ.state u ow) σ.onListeners ks1
              ++ (preA.flatMap (obSliceTrace (newState σ.state u ow) kk)
                ++ [Event.invokeSlice kk T.name false
                      (alistGet (newState σ.state u ow) kk)])),
          some (Exc.thrown e))) ∧
    (∀ (σ : StoreState V) (u : Obj V) (ow : Bool) (fuel : Nat)
      (ks1 : List Key) (kk : Key) (ks2 : List Key)
      (arr preA : List (Observer V)) (T : Observer V)
      (postA : List (Observer V)) (e : Nat),
      (∀ ob ∈ σ.listeners, QuietOb ob) →
      (∀ k' ∈ ks1, ∀ arr', alistGet σ.onListeners k' = some arr' →
        ∀ ob ∈ arr', QuietOb ob) →
      objKeys u = ks1 ++ kk :: ks2 →
      alistGet σ.onListeners kk = some arr → arr = preA ++ T :: postA →
      (∀ ob ∈ preA, QuietOb ob) → Quiet T._li → T._ef = Cmd.throwErr e →
      σ.listeners.length + ks1.length
          + 2 * sliceCount σ.onListeners + 4 ≤ fuel →
      runSetState fuel σ u ow =
        ({σ with state := newState σ.state u ow},
          trace1 (newState σ.state u ow) σ.listeners
            ++ (trace2 (newState σ.state u ow) σ.onListeners ks1
              ++ (preA.flatMap (obSliceTrace (newState σ.state u ow) kk)
                ++ Event.invokeSlice kk T.name false
                      (alistGet (newState σ.state u ow) kk)
                  :: (quietOut T._li (newState σ.state u ow)
                    ++ [Event.invokeSlice kk T.name true
                          (alistGet (newState σ.state u ow) kk)]))),
          some (Exc.thrown e))) := by
  refine ⟨?_, ?_, ?_, ?_⟩
  · intro σ u ow fuel pre T post e hlist hqpre hT hf
    obtain ⟨f, rfl⟩ : ∃ f, fuel = f + 1 := ⟨fuel - 1, by omega⟩
    have hloop : loop1 f ({σ with state := newState σ.state u ow}
        : StoreState V) 0 =
        ({σ with state := newState σ.state u ow},
          trace1 (newState σ.state u ow) pre
            ++ [Event.invoke T.name false (newState σ.state u ow)],
          some (Exc.thrown e)) := by
      have := loop1_throw_li pre
        ({σ with state := newState σ.state u ow}) 0 f T post e
        (by simpa using hlist) hqpre hT (by omega)
      simpa using this
    simp [runSetState, hloop]
  · intro σ u ow fuel pre T post e hlist hqpre hTli hT hf
    obtain ⟨f, rfl⟩ : ∃ f, fuel = f + 1 := ⟨fuel - 1, by omega⟩
    have hloop : loop1 f ({σ with state := newState σ.state u ow}
        : StoreState V) 0 =
        ({σ with state := newState σ.state u ow},
          trace1 (newState σ.state u ow) pre
            ++ Event.invoke T.name false (newState σ.state u ow)
            :: (quietOut T._li (newState σ.state u ow)
              ++ [Event.invoke T.name true (newState σ.state u ow)]),
          some (Exc.thrown e)) := by
      have := loop1_throw_ef pre
        ({σ with state := newState σ.state u ow}) 0 f T post e
        (by simpa using hlist) hqpre hTli hT (by omega)
      simpa using this
    simp [runSetState, hloop]
  · intro σ u ow fuel ks1 kk ks2 arr preA T postA e hq1 hq2 hkeys harr
      hsplit hqpre hT hf
    obtain ⟨f, rfl⟩ : ∃ f, fuel = f + 1 := ⟨fuel - 1, by omega⟩
    have hloop1 : loop1 f ({σ with state := newState σ.state u ow}
        : StoreState V) 0 =
        ({σ with state := newState σ.state u ow},
          trace1 (newState σ.state u ow) σ.listeners, none) := by
      have := loop1_quiet σ.listeners
        ({σ with state := newState σ.state u ow}) 0 f (by simp) hq1
        (by omega)
      simpa using this
    have hloop2 : loop2 f ({σ with state := newState σ.state u ow}
        : StoreState V) (objKeys u) =
        ({σ with state := newState σ.state u ow},
          trace2 (newState σ.state u ow) σ.onListeners ks1
            ++ (preA.flatMap (obSliceTrace (newState σ.state u ow) kk)
              ++ [Event.invokeSlice kk T.name false
                    (alistGet (newState σ.state u ow) kk)]),
          some (Exc.thrown e)) := by
      rw [hkeys]
      have := loop2_throw ks1
        ({σ with state := newState σ.state u ow}) f kk ks2 arr preA T
        postA e hq2 harr hsplit hqpre hT
        (by show ks1.length + 2 * sliceCount σ.onListeners + 2 ≤ f; omega)
      exact this
    simp [runSetState, hloop1, hloop2]
  · intro σ u ow fuel ks1 kk ks2 arr preA T postA e hq1 hq2 hkeys harr
      hsplit hqpre hTli hT hf
    obtain ⟨f, rfl⟩ : ∃ f, fuel = f + 1 := ⟨fuel - 1, by omega⟩
    have hloop1 : loop1 f ({σ with state := newState σ.state u ow}
        : StoreState V) 0 =
        ({σ with state := newState σ.state u ow},
          trace1 (newState σ.state u ow) σ.listeners, none) := by
      have := loop1_quiet σ.listeners
        ({σ with state := newState σ.state u ow}) 0 f (by simp) hq1
        (by omega)
      simpa using this
    have hloop2 : loop2 f ({σ with state := newState σ.state u ow}
        : StoreState V) (objKeys u) =
        ({σ with state := newState σ.state u ow},
          trace2 (newState σ.state u ow) σ.onListeners ks1
            ++ (preA.flatMap (obSliceTrace (newState σ.state u ow) kk)
              ++ Event.invokeSlice kk T.name false
                    (alistGet (newState σ.state u ow) kk)
                :: (quietOut T._li (newState σ.state u ow)
                  ++ [Event.invokeSlice kk T.name true
                        (alistGet (newState σ.state u ow) kk)])),
          some (Exc.thrown e)) := by
      rw [hkeys]
      have := loop2_throw_ef ks1
        ({σ with state := newState σ.state u ow}) f kk ks2 arr preA T
        postA e hq2 harr hsplit hqpre hTli hT
        (by show ks1.length + 2 * sliceCount σ.onListeners + 2 ≤ f; omega)
      exact this
    simp [runSetState, hloop1, hloop2]

theorem claim_C5_witness :
    (([⟨0, Cmd.nop, Cmd.nop⟩, ⟨1, Cmd.throwErr 7, Cmd.nop⟩,
        ⟨2, Cmd.nop, Cmd.nop⟩] : List (Observer Nat)) =
      [⟨0, Cmd.nop, Cmd.nop⟩] ++ ⟨1, Cmd.throwErr 7, Cmd.nop⟩
        :: [⟨2, Cmd.nop, Cmd.nop⟩]) ∧
    runSetState 10 (⟨[], [⟨0, Cmd.nop, Cmd.nop⟩, ⟨1, Cmd.throwErr 7, Cmd.nop⟩,
        ⟨2, Cmd.nop, Cmd.nop⟩], []⟩ : StoreState Nat) [("a", 1)] false =
      ({(⟨[], [⟨0, Cmd.nop, Cmd.nop⟩, ⟨1, Cmd.throwErr 7, Cmd.nop⟩,
            ⟨2, Cmd.nop, Cmd.nop⟩], []⟩ : StoreState Nat) with
          state := newState [] [("a", 1)] false},
        trace1 (newState [] [("a", 1)] false) [⟨0, Cmd.nop, Cmd.nop⟩]
          ++ [Event.invoke 1 false (newState [] [("a", 1)] false)],
        some (Exc.thrown 7)) ∧
    runSetState 10 (⟨[], [⟨1, Cmd.nop, Cmd.throwErr 8⟩,
        ⟨2, Cmd.nop, Cmd.nop⟩], []⟩ : StoreState Nat) [("a", 1)] false =
      ({(⟨[], [⟨1, Cmd.nop, Cmd.throwErr 8⟩, ⟨2, Cmd.nop, Cmd.nop⟩], []⟩
            : StoreState Nat) with
          state := newState [] [("a", 1)] false},
        trace1 (newState [] [("a", 1)] false) []
          ++ Event.invoke 1 false (newState [] [("a", 1)] false)
          :: (quietOut Cmd.nop (newState [] [("a", 1)] false)
            ++ [Event.invoke 1 true (newState [] [("a", 1)] false)]),
        some (Exc.thrown 8)) ∧
    runSetState 20 (⟨[], [⟨0, Cmd.nop, Cmd.nop⟩],
        [("a", [⟨1, Cmd.throwErr 9, Cmd.nop⟩, ⟨2, Cmd.nop, Cmd.nop⟩])]⟩
          : StoreState Nat) [("a", 1)] false =
      ({(⟨[], [⟨0, Cmd.nop, Cmd.nop⟩],
            [("a", [⟨1, Cmd.throwErr 9, Cmd.nop⟩, ⟨2, Cmd.nop, Cmd.nop⟩])]⟩
            : StoreState Nat) with
          state := newState [] [("a", 1)] false},
        trace1 (newState [] [("a", 1)] false) [⟨0, Cmd.nop, Cmd.nop⟩]
          ++ (trace2 (newState [] [("a", 1)] false)
              [("a", [⟨1, Cmd.throwErr 9, Cmd.nop⟩, ⟨2, Cmd.nop, Cmd.nop⟩])] []
            ++ (([] : List (Observer Nat)).flatMap
                  (obSliceTrace (newState [] [("a", 1)] false) "a")
              ++ [Event.invokeSlice "a" 1 false
                    (alistGet (newState [] [("a", 1)] false) "a")])),
        some (Exc.thrown 9)) ∧
    runSetState 20 (⟨[], [⟨0, Cmd.nop, Cmd.nop⟩],
        [("a", [⟨1, Cmd.nop, Cmd.throwErr 11⟩, ⟨2, Cmd.nop, Cmd.nop⟩])]⟩
          : StoreState Nat) [("a", 1)] false =
      ({(⟨[], [⟨0, Cmd.nop, Cmd.nop⟩],
            [("a", [⟨1, Cmd.nop, Cmd.throwErr 11⟩, ⟨2, Cmd.nop, Cmd.nop⟩])]⟩
            : StoreState Nat) with
          state := newState [] [("a", 1)] false},
        trace1 (newState [] [("a", 1)] false) [⟨0, Cmd.nop, Cmd.nop⟩]
          ++ (trace2 (newState [] [("a", 1)] false)
              [("a", [⟨1, Cmd.nop, Cmd.throwErr 11⟩, ⟨2, Cmd.nop, Cmd.nop⟩])] []
            ++ (([] : List (Observer Nat)).flatMap
                  (obSliceTrace (newState [] [("a", 1)] false) "a")
              ++ Event.invokeSlice "a" 1 false
                    (alistGet (newState [] [("a", 1)] false) "a")
                :: (quietOut Cmd.nop (newState [] [("a", 1)] false)
                  ++ [Event.invokeSlice "a" 1 true
                        (alistGet (newState [] [("a", 1)] false) "a")]))),
        some (Exc.thrown 11)) :=
  ⟨by decide,
    (claim_C5 (V := Nat)).1
      ⟨[], [⟨0, Cmd.nop, Cmd.nop⟩, ⟨1, Cmd.throwErr 7, Cmd.nop⟩,
        ⟨2, Cmd.nop, Cmd.nop⟩], []⟩ [("a", 1)] false 10
      [⟨0, Cmd.nop, Cmd.nop⟩] ⟨1, Cmd.throwErr 7, Cmd.nop⟩
      [⟨2, Cmd.nop, Cmd.nop⟩] 7 (by decide) (by decide) rfl (by decide),
    (claim_C5 (V := Nat)).2.1
      ⟨[], [⟨1, Cmd.nop, Cmd.throwErr 8⟩, ⟨2, Cmd.nop, Cmd.nop⟩], []⟩
      [("a", 1)] false 10 [] ⟨1, Cmd.nop, Cmd.throwErr 8⟩
      [⟨2, Cmd.nop, Cmd.nop⟩] 8 (by decide) (by simp) (by decide) rfl
      (by decide),
    (claim_C5 (V := Nat)).2.2.1
      ⟨[], [⟨0, Cmd.nop, Cmd.nop⟩],
        [("a", [⟨1, Cmd.throwErr 9, Cmd.nop⟩, ⟨2, Cmd.nop, Cmd.nop⟩])]⟩
      [("a", 1)] false 20 [] "a" [] [⟨1, Cmd.throwErr 9, Cmd.nop⟩,
        ⟨2, Cmd.nop, Cmd.nop⟩] [] ⟨1, Cmd.throwErr 9, Cmd.nop⟩
      [⟨2, Cmd.nop, Cmd.nop⟩] 9 (by decide) (by simp) (by decide) rfl rfl
      (by simp) rfl (by decide),
    (claim_C5 (V := Nat)).2.2.2
      ⟨[], [⟨0, Cmd.nop, Cmd.nop⟩],
        [("a", [⟨1, Cmd.nop, Cmd.throwErr 11⟩, ⟨2, Cmd.nop, Cmd.nop⟩])]⟩
      [("a", 1)] false 20 [] "a" [] [⟨1, Cmd.nop, Cmd.throwErr 11⟩,
        ⟨2, Cmd.nop, Cmd.nop⟩] [] ⟨1, Cmd.nop, Cmd.throwErr 11⟩
      [⟨2, Cmd.nop, Cmd.nop⟩] 11 (by decide) (by simp) (by decide) rfl rfl
      (by simp) (by decide) rfl (by decide)⟩

/-- Claim C6: `setState({})` with `overwrite=false` leaves the state
unchanged (the merge of no keys into a copy of a well-formed state equals
that state), still invokes every registered whole-state observer (`_li`
and `_ef`) with the unchanged state, and invokes zero slice observers
(`Object.keys({})` is empty, so phase 2 runs zero times). -/
theorem claim_C6 (σ : StoreState V) (fuel : Nat) (hq : QuietStore σ)
    (hs : objNodup σ.state)
    (hf : σ.listeners.length + sliceCount σ.onListeners + 3 ≤ fuel) :
    runSetState fuel σ [] false = (σ, trace1 σ.state σ.listeners, none) ∧
    (∀ ob ∈ σ.listeners,
      Event.invoke ob.name false σ.state ∈ trace1 σ.state σ.listeners ∧
        Event.invoke ob.name true σ.state ∈ trace1 σ.state σ.listeners) ∧
    (∀ (k : Key) (n : Nat) (b : Bool) (p : Option V),
      Event.invokeSlice k n b p ∉ trace1 σ.state σ.listeners) := by
  have hns : newState σ.state ([] : Obj V) false = σ.state := by
    have h1 : newState σ.state ([] : Obj V) false = assign [] σ.state := rfl
    rw [h1, assign_nil _ hs]
  have hmain := runSetState_quiet σ [] false fuel hq (by simpa [objKeys] using hf)
  rw [hns] at hmain
  refine ⟨?_, fun ob hob => invoke_mem_trace1 hob,
    fun k n b p => trace1_no_slice⟩
  rw [hmain]
  simp [trace2, objKeys]

theorem claim_C6_witness :
    QuietStore (⟨[("a", 1)], [⟨0, Cmd.nop, Cmd.nop⟩],
        [("a", [⟨1, Cmd.nop, Cmd.nop⟩])]⟩ : StoreState Nat) ∧
    objNodup (⟨[("a", 1)], [⟨0, Cmd.nop, Cmd.nop⟩],
        [("a", [⟨1, Cmd.nop, Cmd.nop⟩])]⟩ : StoreState Nat).state ∧
    (⟨[("a", 1)], [⟨0, Cmd.nop, Cmd.nop⟩], [("a", [⟨1, Cmd.nop, Cmd.nop⟩])]⟩
        : StoreState Nat).listeners.length
      + sliceCount (⟨[("a", 1)], [⟨0, Cmd.nop, Cmd.nop⟩],
          [("a", [⟨1, Cmd.nop, Cmd.nop⟩])]⟩ : StoreState Nat).onListeners
      + 3 ≤ 20 ∧
    (runSetState 20 (⟨[("a", 1)], [⟨0, Cmd.nop, Cmd.nop⟩],
        [("a", [⟨1, Cmd.nop, Cmd.nop⟩])]⟩ : StoreState Nat) [] false =
      ((⟨[("a", 1)], [⟨0, Cmd.nop, Cmd.nop⟩],
          [("a", [⟨1, Cmd.nop, Cmd.nop⟩])]⟩ : StoreState Nat),
        trace1 [("a", 1)] [⟨0, Cmd.nop, Cmd.nop⟩], none) ∧
      (∀ ob ∈ ([⟨0, Cmd.nop, Cmd.nop⟩] : List (Observer Nat)),
        Event.invoke ob.name false [("a", 1)] ∈
            trace1 [("a", 1)] [⟨0, Cmd.nop, Cmd.nop⟩] ∧
          Event.invoke ob.name true [("a", 1)] ∈
            trace1 [("a", 1)] [⟨0, Cmd.nop, Cmd.nop⟩]) ∧
      (∀ (k : Key) (n : Nat) (b : Bool) (p : Option Nat),
        Event.invokeSlice k n b p ∉ trace1 [("a", 1)] [⟨0, Cmd.nop, Cmd.nop⟩])) :=
  ⟨by decide, by decide, by decide,
    claim_C6 ⟨[("a", 1)], [⟨0, Cmd.nop, Cmd.nop⟩],
        [("a", [⟨1, Cmd.nop, Cmd.nop⟩])]⟩ 20
      (by decide) (by decide) (by decide)⟩

/-- Claim C7: slice isolation — a slice observer registered for key `a` is
never invoked by a `setState` call whose update does not contain key `a`,
regardless of the whole-state observers; update keys with no registered
slice observers raise no error (the call returns normally) and contribute
to phase-1 notifications only (no slice invocation carries such a key). -/
theorem claim_C7 (σ : StoreState V) (u : Obj V) (ow : Bool) (fuel : Nat)
    (a : Key) (hq : QuietStore σ) (ha : a ∉ objKeys u)
    (hf : σ.listeners.length + (objKeys u).length
            + sliceCount σ.onListeners + 3 ≤ fuel) :
    (runSetState fuel σ u ow).2.2 = none ∧
    (∀ (n : Nat) (b : Bool) (p : Option V),
      Event.invokeSlice a n b p ∉ (runSetState fuel σ u ow).2.1) ∧
    (∀ (k : Key) (n : Nat) (b : Bool) (p : Option V),
      alistGet σ.onListeners k = none →
        Event.invokeSlice k n b p ∉ (runSetState fuel σ u ow).2.1) := by
  rw [runSetState_quiet σ u ow fuel hq hf]
  refine ⟨rfl, ?_, ?_⟩
  · intro n b p hmem
    rcases List.mem_append.mp hmem with h | h
    · exact trace1_no_slice h
    · exact ha (trace2_slice_key h).1
  · intro k n b p hnone hmem
    rcases List.mem_append.mp hmem with h | h
    · exact trace1_no_slice h
    · have := (trace2_slice_key h).2
      rw [hnone] at this
      simp at this

theorem claim_C7_witness :
    QuietStore (⟨[], [⟨0, Cmd.nop, Cmd.nop⟩],
        [("a", [⟨1, Cmd.nop, Cmd.nop⟩])]⟩ : StoreState Nat) ∧
    "a" ∉ objKeys ([("b", 2)] : Obj Nat) ∧
    (⟨[], [⟨0, Cmd.nop, Cmd.nop⟩], [("a", [⟨1, Cmd.nop, Cmd.nop⟩])]⟩
        : StoreState Nat).listeners.length
      + (objKeys ([("b", 2)] : Obj Nat)).length
      + sliceCount (⟨[], [⟨0, Cmd.nop, Cmd.nop⟩],
          [("a", [⟨1, Cmd.nop, Cmd.nop⟩])]⟩ : StoreState Nat).onListeners
      + 3 ≤ 20 ∧
    ((runSetState 20 (⟨[], [⟨0, Cmd.nop, Cmd.nop⟩],
        [("a", [⟨1, Cmd.nop, Cmd.nop⟩])]⟩ : StoreState Nat)
        [("b", 2)] false).2.2 = none ∧
      (∀ (n : Nat) (b : Bool) (p : Option Nat),
        Event.invokeSlice "a" n b p ∉
          (runSetState 20 (⟨[], [⟨0, Cmd.nop, Cmd.nop⟩],
              [("a", [⟨1, Cmd.nop, Cmd.nop⟩])]⟩ : StoreState Nat)
              [("b", 2)] false).2.1) ∧
      (∀ (k : Key) (n : Nat) (b : Bool) (p : Option Nat),
        alistGet (⟨[], [⟨0, Cmd.nop, Cmd.nop⟩],
            [("a", [⟨1, Cmd.nop, Cmd.nop⟩])]⟩ : StoreState Nat).onListeners k
            = none →
          Event.invokeSlice k n b p ∉
            (runSetState 20 (⟨[], [⟨0, Cmd.nop, Cmd.nop⟩],
                [("a", [⟨1, Cmd.nop, Cmd.nop⟩])]⟩ : StoreState Nat)
                [("b", 2)] false).2.1)) :=
  ⟨by decide, by decide, by decide,
    claim_C7 ⟨[], [⟨0, Cmd.nop, Cmd.nop⟩], [("a", [⟨1, Cmd.nop, Cmd.nop⟩])]⟩
      [("b", 2)] false 20 "a" (by decide) (by decide) (by decide)⟩

/-- Claim C8: `setState` assigns the new state before invoking any
observer, so `getState()` called from within any observer callback invoked
by that same `setState` call returns the new state, never the prior one:
every `got` event of the fan-out carries exactly the merged new state. -/
theorem claim_C8 (σ : StoreState V) (u : Obj V) (ow : Bool) (fuel : Nat)
    (G : Observer V) (hq : QuietStore σ) (hG : G ∈ σ.listeners)
    (hli : G._li = Cmd.getState)
    (hf : σ.listeners.length + (objKeys u).length
            + sliceCount σ.onListeners + 3 ≤ fuel) :
    Event.got (newState σ.state u ow) ∈ (runSetState fuel σ u ow).2.1 ∧
    ∀ (x : Obj V), Event.got x ∈ (runSetState fuel σ u ow).2.1 →
      x = newState σ.state u ow := by
  rw [runSetState_quiet σ u ow fuel hq hf]
  constructor
  · exact List.mem_append.mpr (Or.inl (got_mem_trace1 hG hli))
  · intro x hmem
    rcases List.mem_append.mp hmem with h | h
    · exact trace1_got h
    · exact trace2_got h

theorem claim_C8_witness :
    QuietStore (⟨[("p", 9)], [⟨0, Cmd.getState, Cmd.nop⟩], []⟩
        : StoreState Nat) ∧
    (⟨0, Cmd.getState, Cmd.nop⟩ : Observer Nat) ∈
      (⟨[("p", 9)], [⟨0, Cmd.getState, Cmd.nop⟩], []⟩
          : StoreState Nat).listeners ∧
    (⟨0, Cmd.getState, Cmd.nop⟩ : Observer Nat)._li = Cmd.getState ∧
    (⟨[("p", 9)], [⟨0, Cmd.getState, Cmd.nop⟩], []⟩
        : StoreState Nat).listeners.length
      + (objKeys ([("a", 1)] : Obj Nat)).length
      + sliceCount (⟨[("p", 9)], [⟨0, Cmd.getState, Cmd.nop⟩], []⟩
          : StoreState Nat).onListeners + 3 ≤ 20 ∧
    (Event.got (newState [("p", 9)] [("a", 1)] false) ∈
        (runSetState 20 (⟨[("p", 9)], [⟨0, Cmd.getState, Cmd.nop⟩], []⟩
            : StoreState Nat) [("a", 1)] false).2.1 ∧
      ∀ (x : Obj Nat),
        Event.got x ∈ (runSetState 20
            (⟨[("p", 9)], [⟨0, Cmd.getState, Cmd.nop⟩], []⟩
              : StoreState Nat) [("a", 1)] false).2.1 →
          x = newState [("p", 9)] [("a", 1)] false) :=
  ⟨by decide, by decide, by decide, by decide,
    claim_C8 ⟨[("p", 9)], [⟨0, Cmd.getState, Cmd.nop⟩], []⟩ [("a", 1)] false 20
      ⟨0, Cmd.getState, Cmd.nop⟩ (by decide) (by decide) (by decide) (by decide)⟩

/-! ## Object identity: the heap model for reference stability

`getState()` returns the state *reference*.  To reason about mutation of
previously returned references we model a heap of objects: identities are
indices, and `Object.assign` mutates its target object in place. -/

/-- A heap of JavaScript objects; an object reference is an index. -/
abbrev Heap (V : Type) := List (Obj V)

/-- Modelled from the spec: the in-place reading of `assign` from the
missing `./util` — `Object.assign(target, source)` copies every own key of
`source` into `target`, mutating `target` in place and returning it (here:
its id). -/
def assignH (h : Heap V) (tgt src : Nat) : Heap V :=
  h.set tgt (assign (h.getD tgt []) (h.getD src []))

/-- The state expression of `setState` on the heap (src/index.js line 23):
`overwrite ? update : assign(assign({}, state), update)` — with
`overwrite` the new state reference is the update object itself; otherwise
a fresh empty object is allocated and both `assign`s mutate only that
fresh object.  Returns the new heap and the new state's reference. -/
def setStateH (h : Heap V) (stateId updId : Nat) (overwrite : Bool) :
    Heap V × Nat :=
  if overwrite then (h, updId)
  else
    let fresh := h.length
    let h1 := h ++ [[]]
    let h2 := assignH h1 fresh stateId
    let h3 := assignH h2 fresh updId
    (h3, fresh)

/-- Claim C9: no `setState` call mutates any pre-existing object — in
particular not the object that was the current state, nor any reference
previously returned by `getState()`: every object id allocated before the
call still holds exactly its old contents afterwards.  With
`overwrite=false` the new state is a newly constructed object (the fresh
id `h.length`); with `overwrite=true` it is the update object itself and
the heap is untouched. -/
theorem claim_C9 (h : Heap V) (stateId updId : Nat) (ow : Bool) (i : Nat)
    (hi : i < h.length) :
    (setStateH h stateId updId ow).1[i]? = h[i]? ∧
    (setStateH h stateId updId false).2 = h.length ∧
    setStateH h stateId updId true = (h, updId) := by
  refine ⟨?_, rfl, rfl⟩
  cases ow with
  | true => rfl
  | false =>
      show ((((h ++ [[]]).set h.length _).set h.length _) : Heap V)[i]? = h[i]?
      rw [List.getElem?_set_ne (by omega), List.getElem?_set_ne (by omega)]
      exact List.getElem?_append_left hi

theorem claim_C9_witness :
    0 < ([[("a", 1)], [("b", 2)]] : Heap Nat).length ∧
    ((setStateH ([[("a", 1)], [("b", 2)]] : Heap Nat) 0 1 false).1[0]? =
        ([[("a", 1)], [("b", 2)]] : Heap Nat)[0]? ∧
      (setStateH ([[("a", 1)], [("b", 2)]] : Heap Nat) 0 1 false).2 =
        ([[("a", 1)], [("b", 2)]] : Heap Nat).length ∧
      setStateH ([[("a", 1)], [("b", 2)]] : Heap Nat) 0 1 true =
        ([[("a", 1)], [("b", 2)]], 1)) :=
  ⟨by decide, claim_C9 [[("a", 1)], [("b", 2)]] 0 1 false 0 (by decide)⟩

/-! ## Construction: `createStore` and falsy initial states -/

/-- A JavaScript value, as far as `createStore`'s `state = state || {}`
needs to distinguish them. -/
inductive JSVal (V : Type) where
  | undef
  | jsNull
  | jsBool (b : Bool)
  | jsNum (n : Int)
  | jsStr (s : String)
  | jsObj (o : Obj V)
  deriving DecidableEq

/-- JavaScript truthiness of the values above (`undefined`, `null`,
`false`, `0`, `""` are falsy; any object is truthy). -/
def truthy : JSVal V → Bool
  | JSVal.undef => false
  | JSVal.jsNull => false
  | JSVal.jsBool b => b
  | JSVal.jsNum n => n != 0
  | JSVal.jsStr s => s != ""
  | JSVal.jsObj _ => true

/-- `state = state || {}` (src/index.js line 19): any falsy argument —
not only an omitted one — is replaced by a fresh empty object. -/
def initialState (x : JSVal V) : JSVal V :=
  if truthy x then x else JSVal.jsObj []

/-- `createStore(state)` (src/index.js lines 16-19 and the returned
record): empty listener list, empty `onListeners` map, and
`state = state || {}`.  The store model's state is an object; a truthy
non-object initial value (never exercised by the claims) is mapped to the
empty object. -/
def createStore (x : JSVal V) : StoreState V :=
  { state :=
      match initialState x with
      | JSVal.jsObj o => o
      | _ => []
    listeners := []
    onListeners := [] }

/-- Claim C10: `createStore` replaces every falsy `initialState` argument
— `undefined`, `null`, `0`, `""`, `false` — with a fresh empty mapping:
after `createStore(x)`, `getState()` returns the empty state, not `x`. -/
theorem claim_C10 (V : Type) :
    (initialState (JSVal.undef : JSVal V) = JSVal.jsObj [] ∧
      getState (createStore (JSVal.undef : JSVal V)) = []) ∧
    (initialState (JSVal.jsNull : JSVal V) = JSVal.jsObj [] ∧
      getState (createStore (JSVal.jsNull : JSVal V)) = []) ∧
    (initialState (JSVal.jsNum 0 : JSVal V) = JSVal.jsObj [] ∧
      getState (createStore (JSVal.jsNum 0 : JSVal V)) = []) ∧
    (initialState (JSVal.jsStr "" : JSVal V) = JSVal.jsObj [] ∧
      getState (createStore (JSVal.jsStr "" : JSVal V)) = []) ∧
    (initialState (JSVal.jsBool false : JSVal V) = JSVal.jsObj [] ∧
      getState (createStore (JSVal.jsBool false : JSVal V)) = []) := by
  refine ⟨⟨rfl, rfl⟩, ⟨rfl, rfl⟩, ⟨?_, ?_⟩, ⟨?_, ?_⟩, ⟨rfl, rfl⟩⟩ <;>
    simp [initialState, truthy, createStore, getState]

end ByteStore
